import Mathlib

/-!
# Verification of the atomman System core

A shallow embedding of `src/atomman/core/System.py` (the `System` class:
coordinate transforms, box setting, wrapping, pbc validation, neighbor-list
storage, and `dvect` argument resolution), with theorems settling the
specification claims.

Real-valued numpy arrays are embedded as exact rationals; 3-vectors and
3×3 matrices are explicit structures so that every operation is executable.
The call `np.linalg.inv` is embedded as the explicit adjugate-over-determinant
formula for a 3×3 matrix.
-/

namespace Atomman

/-- A 3-vector of exact rationals (embeds a numpy length-3 float array). -/
@[ext]
structure Vec3 where
  x : ℚ
  y : ℚ
  z : ℚ
deriving DecidableEq, Repr

/-- A 3×3 matrix, stored as three rows (embeds `box.vects`, whose rows are
`avect`, `bvect`, `cvect`). -/
@[ext]
structure Mat3 where
  r0 : Vec3
  r1 : Vec3
  r2 : Vec3
deriving DecidableEq, Repr

/-- Componentwise addition of 3-vectors. -/
def Vec3.add (u v : Vec3) : Vec3 := ⟨u.x + v.x, u.y + v.y, u.z + v.z⟩

/-- Componentwise subtraction of 3-vectors. -/
def Vec3.sub (u v : Vec3) : Vec3 := ⟨u.x - v.x, u.y - v.y, u.z - v.z⟩

/-- Scalar multiple of a 3-vector. -/
def Vec3.smul (q : ℚ) (v : Vec3) : Vec3 := ⟨q * v.x, q * v.y, q * v.z⟩

instance : Add Vec3 := ⟨Vec3.add⟩

instance : Sub Vec3 := ⟨Vec3.sub⟩

/-- Row-vector times matrix: `v.dot(M)` in numpy, with `M`'s rows
`r0, r1, r2`; component `j` of the result is the sum over `k` of
`v_k * M[k][j]`. -/
def vecMulMat (v : Vec3) (M : Mat3) : Vec3 :=
  ⟨v.x * M.r0.x + v.y * M.r1.x + v.z * M.r2.x,
   v.x * M.r0.y + v.y * M.r1.y + v.z * M.r2.y,
   v.x * M.r0.z + v.y * M.r1.z + v.z * M.r2.z⟩

/-- Matrix product: row `i` of `A ⬝ B` is row `i` of `A` times `B`. -/
def matMul (A B : Mat3) : Mat3 :=
  ⟨vecMulMat A.r0 B, vecMulMat A.r1 B, vecMulMat A.r2 B⟩

/-- The 3×3 identity matrix. -/
def idMat : Mat3 := ⟨⟨1, 0, 0⟩, ⟨0, 1, 0⟩, ⟨0, 0, 1⟩⟩

/-- Determinant of a 3×3 matrix (cofactor expansion along the first row). -/
def det (M : Mat3) : ℚ :=
  M.r0.x * (M.r1.y * M.r2.z - M.r1.z * M.r2.y)
  - M.r0.y * (M.r1.x * M.r2.z - M.r1.z * M.r2.x)
  + M.r0.z * (M.r1.x * M.r2.y - M.r1.y * M.r2.x)

/-- Embeds `np.linalg.inv` for a 3×3 matrix: the adjugate (transposed
cofactor matrix) divided by the determinant. -/
def matInv (M : Mat3) : Mat3 :=
  let dt := det M
  ⟨⟨(M.r1.y * M.r2.z - M.r1.z * M.r2.y) / dt,
    (M.r0.z * M.r2.y - M.r0.y * M.r2.z) / dt,
    (M.r0.y * M.r1.z - M.r0.z * M.r1.y) / dt⟩,
   ⟨(M.r1.z * M.r2.x - M.r1.x * M.r2.z) / dt,
    (M.r0.x * M.r2.z - M.r0.z * M.r2.x) / dt,
    (M.r0.z * M.r1.x - M.r0.x * M.r1.z) / dt⟩,
   ⟨(M.r1.x * M.r2.y - M.r1.y * M.r2.x) / dt,
    (M.r0.y * M.r2.x - M.r0.x * M.r2.y) / dt,
    (M.r0.x * M.r1.y - M.r0.y * M.r1.x) / dt⟩⟩

/-- A simulation box: three lattice vectors and an origin.  (Box.py is
outside src/; the spec's data model for it is exactly these four 3-vectors,
which is all System.py reads: `box.vects` with rows `avect, bvect, cvect`,
`box.origin`, and the attribute-wise `box.set`.) -/
@[ext]
structure Box where
  avect : Vec3
  bvect : Vec3
  cvect : Vec3
  origin : Vec3
deriving DecidableEq, Repr

/-- The lattice matrix `box.vects`, whose rows are the three box vectors. -/
def Box.vects (b : Box) : Mat3 := ⟨b.avect, b.bvect, b.cvect⟩

/-- Embeds `System.scale` (System.py lines 139-147): converts absolute
coordinates to box-fractional ones, `(value - origin).dot(inv(vects))`. -/
def scaleVec (b : Box) (v : Vec3) : Vec3 :=
  vecMulMat (v - b.origin) (matInv b.vects)

/-- Embeds `System.unscale` (System.py lines 149-156): converts
box-fractional coordinates to absolute ones, `value.dot(vects) + origin`. -/
def unscaleVec (b : Box) (v : Vec3) : Vec3 :=
  vecMulMat v b.vects + b.origin

/-- The spec's formula for `scale(v)`: `(v - origin) · inverse(lattice)`,
with no bounds clipping.  Stated separately from `scaleVec` so the source
translation can be compared against the spec's words. -/
def specScale (b : Box) (v : Vec3) : Vec3 :=
  vecMulMat (v - b.origin) (matInv b.vects)

/-- The spec's formula for `unscale(v)`: `v · lattice + origin`. -/
def specUnscale (b : Box) (v : Vec3) : Vec3 :=
  vecMulMat v b.vects + b.origin

/-- A neighbor list: for each atom index, the indices of its neighbors. -/
abbrev NList := List (List ℕ)

/-- A value held in the free-form `prop` dictionary.  The only structured
value the core itself stores is the neighbor list under key `'nlist'`;
`otherVal` stands for any other caller-supplied value. -/
inductive PropVal where
  | nlistVal (nl : NList)
  | otherVal (tag : ℕ)
deriving DecidableEq, Repr

/-- The free-form property dictionary, embedded as an association list with
at most one binding per key. -/
abbrev PropDict := List (String × PropVal)

/-- Python dict assignment `d[k] = v`: replace the binding of `k` if present,
otherwise add one. -/
def dictSet (d : PropDict) (k : String) (v : PropVal) : PropDict :=
  match d with
  | [] => [(k, v)]
  | (k0, v0) :: rest =>
    if k0 = k then (k, v) :: rest else (k0, v0) :: dictSet rest k v

/-- Python dict lookup `d[k]`, as an `Option`. -/
def dictGet (d : PropDict) (k : String) : Option PropVal :=
  match d with
  | [] => none
  | (k0, v0) :: rest => if k0 = k then some v0 else dictGet rest k

/-- The `System` state: atom positions (`atoms.view['pos']`, absolute
coordinates), the box, the three periodicity flags, and the property dict.
The `Atoms` container (Atoms.py, outside src/) is reduced to its mandatory
`pos` array, the only part of it that System.py's operations touch. -/
structure System where
  atoms : List Vec3
  box : Box
  pbc0 : Bool
  pbc1 : Bool
  pbc2 : Bool
  prop : PropDict
deriving DecidableEq, Repr

/-- The `pbc` attribute read back as the 3-entry boolean array it stores. -/
def System.pbcList (S : System) : List Bool := [S.pbc0, S.pbc1, S.pbc2]

/-- The `pbc` setter (System.py lines 128-132): coerce the value to a boolean
array (embedded as the caller supplying a `List Bool`) and assert its shape
is `(3,)`; on success the three flags are stored. -/
def pbcSet (value : List Bool) : Except String (Bool × Bool × Bool) :=
  match value with
  | [a, b, c] => .ok (a, b, c)
  | _ => .error "invalid pbc entry"

/-- The `pbc` setter applied to an existing `System` (`S.pbc = value`). -/
def setPbc (S : System) (value : List Bool) : Except String System :=
  (pbcSet value).map fun t => { S with pbc0 := t.1, pbc1 := t.2.1, pbc2 := t.2.2 }

/-- Embeds `System.__init__` (System.py lines 15-39): store box and atoms,
unscale the positions when `scale` is true, then validate and store `pbc`,
then store `prop`.  The type asserts on `box`, `atoms` and `prop` hold by
typing here. -/
def mkSystem (atoms : List Vec3) (box : Box) (pbc : List Bool) (scale : Bool)
    (prop : PropDict) : Except String System :=
  let atoms1 := if scale then atoms.map (unscaleVec box) else atoms
  match pbcSet pbc with
  | .error e => .error e
  | .ok t => .ok ⟨atoms1, box, t.1, t.2.1, t.2.2, prop⟩

/-- Embeds `System.box_set` (System.py lines 91-114), with the new box
parameters already assembled into `newBox` (`Box.set` itself lives in
Box.py, outside src/; for the vects / avect-bvect-cvect / origin
parameterizations it just installs these four vectors).  Source line 109
reads `if not 'scale':`, which tests the truthiness of the literal string
`'scale'` — always truthy — rather than the popped `scale` variable, so the
first branch (keep absolute positions) is dead and the
fractional-preserving branch always runs.  The embedding reproduces that:
the condition below is the emptiness test of the literal string, and the
popped `scale` argument is never consulted. -/
def boxSet (S : System) (newBox : Box) (scale : Bool) : System :=
  let _ := scale
  if ("scale" : String).isEmpty then
    { S with box := newBox }
  else
    let spos := S.atoms.map (scaleVec S.box)
    { S with box := newBox, atoms := spos.map (unscaleVec newBox) }

/-- The behavior that `box_set`'s own docstring (System.py lines 103-105)
prescribes: with `scale = False` the absolute positions are kept, with
`scale = True` the fractional positions are kept.  This is what line 109
would do had it read `if not scale:`. -/
def boxSetIntended (S : System) (newBox : Box) (scale : Bool) : System :=
  if ¬ scale then
    { S with box := newBox }
  else
    let spos := S.atoms.map (scaleVec S.box)
    { S with box := newBox, atoms := spos.map (unscaleVec newBox) }

/-- Embeds `System.box_normalize` (System.py lines 116-121): record the
fractional positions, normalize the box, and restore the positions from the
recorded fractions.  `Box.normalize` lives in Box.py, outside src/, so it is
a parameter here (Modelled from the spec: `normalizeBox()` reduces the
lattice representation to a canonical reduced form). -/
def boxNormalize (normFn : Box → Box) (S : System) : System :=
  let spos := S.atoms.map (scaleVec S.box)
  let b := normFn S.box
  { S with box := b, atoms := spos.map (unscaleVec b) }

/-- The `np.floor` subtraction used on periodic axes: the fractional part
of a rational. -/
def fracPart (q : ℚ) : ℚ := q - (⌊q⌋ : ℚ)

/-- Embeds numpy `.min()` over one axis of the scaled positions (the source
never reaches it with an empty array; `0` is a junk default). -/
def axisMin : List ℚ → ℚ
  | [] => 0
  | h :: t => t.foldl min h

/-- Embeds numpy `.max()` over one axis (junk default `1` for the empty
case). -/
def axisMax : List ℚ → ℚ
  | [] => 1
  | h :: t => t.foldl max h

/-- One iteration of the wrap loop (System.py lines 185-192) for axis `i`:
periodic axes keep `mins[i] = 0`, `maxs[i] = 1`; non-periodic axes move
`mins[i]` below the data minimum (resp. `maxs[i]` above the maximum) by
`0.001` when atoms stick out of `[0, 1]`. -/
def wrapBounds (p : Bool) (coords : List ℚ) : ℚ × ℚ :=
  if p then (0, 1)
  else
    (if axisMin coords < 0 then axisMin coords - 1/1000 else 0,
     if axisMax coords > 1 then axisMax coords + 1/1000 else 1)

/-- The per-coordinate update of the wrap loop: periodic axes subtract the
floor, non-periodic axes are left alone. -/
def axisWrap (p : Bool) (q : ℚ) : ℚ := if p then fracPart q else q

/-- Embeds `System.wrap` (System.py lines 178-200): scale the positions,
wrap the periodic axes into `[0,1)` and compute expansion bounds for the
non-periodic axes, write the (old-box) unscaled positions back, then call
`box_set` with the expanded box vectors and shifted origin. -/
def wrap (S : System) : System :=
  let spos := S.atoms.map (scaleVec S.box)
  let b0 := wrapBounds S.pbc0 (spos.map Vec3.x)
  let b1 := wrapBounds S.pbc1 (spos.map Vec3.y)
  let b2 := wrapBounds S.pbc2 (spos.map Vec3.z)
  let spos2 := spos.map fun v =>
    (⟨axisWrap S.pbc0 v.x, axisWrap S.pbc1 v.y, axisWrap S.pbc2 v.z⟩ : Vec3)
  let S1 := { S with atoms := spos2.map (unscaleVec S.box) }
  let origin := S.box.origin + vecMulMat ⟨b0.1, b1.1, b2.1⟩ S.box.vects
  let avect := Vec3.smul (b0.2 - b0.1) S.box.avect
  let bvect := Vec3.smul (b1.2 - b1.1) S.box.bvect
  let cvect := Vec3.smul (b2.2 - b2.1) S.box.cvect
  boxSet S1 ⟨avect, bvect, cvect, origin⟩ false

/-- The wrap operation as it would behave with the intended `box_set`
(`boxSetIntended`): used to show that the wrap-level claims hold for the
documented `box_set` semantics. -/
def wrapIntended (S : System) : System :=
  let spos := S.atoms.map (scaleVec S.box)
  let b0 := wrapBounds S.pbc0 (spos.map Vec3.x)
  let b1 := wrapBounds S.pbc1 (spos.map Vec3.y)
  let b2 := wrapBounds S.pbc2 (spos.map Vec3.z)
  let spos2 := spos.map fun v =>
    (⟨axisWrap S.pbc0 v.x, axisWrap S.pbc1 v.y, axisWrap S.pbc2 v.z⟩ : Vec3)
  let S1 := { S with atoms := spos2.map (unscaleVec S.box) }
  let origin := S.box.origin + vecMulMat ⟨b0.1, b1.1, b2.1⟩ S.box.vects
  let avect := Vec3.smul (b0.2 - b0.1) S.box.avect
  let bvect := Vec3.smul (b1.2 - b1.1) S.box.bvect
  let cvect := Vec3.smul (b2.2 - b2.1) S.box.cvect
  boxSetIntended S1 ⟨avect, bvect, cvect, origin⟩ false

/-- Embeds `System.nlist` (System.py lines 202-209): compute the neighbor
list and store it in the property dict under `'nlist'`; the method body is a
bare assignment, so the call returns Python's `None` (embedded as `none` in
the first component).  The computation `atomman.tools.nlist` lives outside
src/ and is the parameter `f` (Modelled from the spec: SpatialBinning
builds, per `(cutoff, cmult)`, the cutoff-limited neighbor list). -/
def sysNlist (f : System → ℚ → ℕ → NList) (S : System) (cutoff : ℚ)
    (cmult : ℕ) : Option NList × System :=
  (none, { S with prop := dictSet S.prop "nlist" (.nlistVal (f S cutoff cmult)) })

/-- An argument to `System.dvect`, after `np.asarray`: either an
integer-dtype array (atom indices) or a float-dtype array (positions). -/
inductive PosArg where
  | idx (l : List ℕ)
  | pos (l : List Vec3)
deriving DecidableEq, Repr

/-- The stored position of atom `i` (`self.atoms.view['pos'][i]`; the junk
default is never reached for in-range indices). -/
def posAt (S : System) (i : ℕ) : Vec3 := S.atoms.getD i ⟨0, 0, 0⟩

/-- The index-resolution step of `System.dvect` (System.py lines 164-173):
an integer-dtype argument is replaced by the stored positions at those
indices; any other argument is passed through as positions. -/
def resolveArg (S : System) (a : PosArg) : List Vec3 :=
  match a with
  | .idx l => l.map (posAt S)
  | .pos l => l

/-- Embeds `System.dvect` (System.py lines 158-176): resolve both arguments,
then forward to `atomman.tools.dvect` with the system's box and pbc.  The
tools function lives outside src/ and is the parameter `g` (Modelled from
the spec: MinimumImageDistance computes periodic-boundary-aware shortest
displacements). -/
def sysDvect (g : List Vec3 → List Vec3 → Box → List Bool → List Vec3)
    (S : System) (a0 a1 : PosArg) : List Vec3 :=
  g (resolveArg S a0) (resolveArg S a1) S.box S.pbcList

/-- The unit cube box (identity lattice, origin at zero). -/
def cubeBox : Box := ⟨⟨1, 0, 0⟩, ⟨0, 1, 0⟩, ⟨0, 0, 1⟩, ⟨0, 0, 0⟩⟩

/-- A fully periodic unit-box system with one atom at `(1, 2, 3)` — used by
witnesses. -/
def sysUnit : System := ⟨[⟨1, 2, 3⟩], cubeBox, true, true, true, []⟩

/-- A fully periodic unit-box system with one atom at `(1, 0, 0)` — the
`box_set` failing input. -/
def sysC1 : System := ⟨[⟨1, 0, 0⟩], cubeBox, true, true, true, []⟩

/-- The doubled box passed to `box_set` in the failing input. -/
def boxDoubled : Box := ⟨⟨2, 0, 0⟩, ⟨0, 2, 0⟩, ⟨0, 0, 2⟩, ⟨0, 0, 0⟩⟩

/-- The side-10 cubic box with origin zero (xlo = 0, xhi = 10). -/
def box10 : Box := ⟨⟨10, 0, 0⟩, ⟨0, 10, 0⟩, ⟨0, 0, 10⟩, ⟨0, 0, 0⟩⟩

/-- The spec's wrap scenario: x axis non-periodic, box xlo = 0, xhi = 10,
one atom at absolute x = -0.5. -/
def sysWrapCex : System := ⟨[⟨-1/2, 5, 5⟩], box10, false, true, true, []⟩

/-- The state the source's `wrap` produces from `sysWrapCex`: the box is
expanded to xlo = -0.51 as specified, but the dead-branch `box_set` has
rescaled the atom to x = -1.0355. -/
def wrapCexOnce : System :=
  ⟨[⟨-2071/2000, 5, 5⟩],
   ⟨⟨1051/100, 0, 0⟩, ⟨0, 10, 0⟩, ⟨0, 0, 10⟩, ⟨-51/100, 0, 0⟩⟩,
   false, true, true, []⟩

/-- The state the intended `wrap` produces from `sysWrapCex`: same expanded
box, atom untouched at x = -0.5. -/
def wrapCexOnceIntended : System :=
  ⟨[⟨-1/2, 5, 5⟩],
   ⟨⟨1051/100, 0, 0⟩, ⟨0, 10, 0⟩, ⟨0, 0, 10⟩, ⟨-51/100, 0, 0⟩⟩,
   false, true, true, []⟩

/-! ## Component lemmas -/

theorem Vec3.add_x (u v : Vec3) : (u + v).x = u.x + v.x := rfl

theorem Vec3.add_y (u v : Vec3) : (u + v).y = u.y + v.y := rfl

theorem Vec3.add_z (u v : Vec3) : (u + v).z = u.z + v.z := rfl

theorem Vec3.sub_x (u v : Vec3) : (u - v).x = u.x - v.x := rfl

theorem Vec3.sub_y (u v : Vec3) : (u - v).y = u.y - v.y := rfl

theorem Vec3.sub_z (u v : Vec3) : (u - v).z = u.z - v.z := rfl

attribute [simp] Vec3.add_x Vec3.add_y Vec3.add_z Vec3.sub_x Vec3.sub_y Vec3.sub_z

theorem scale_str_not_empty : ("scale" : String).isEmpty = false := rfl

/-! ## Matrix inverse lemmas -/

theorem vecMulMat_idMat (v : Vec3) : vecMulMat v idMat = v := by
  cases v
  simp [vecMulMat, idMat]

theorem vecMulMat_matMul (v : Vec3) (A B : Mat3) :
    vecMulMat (vecMulMat v A) B = vecMulMat v (matMul A B) := by
  cases v; cases A; cases B
  simp only [vecMulMat, matMul, Vec3.mk.injEq]
  refine ⟨by ring, by ring, by ring⟩

theorem matMul_matInv (M : Mat3) (h : det M ≠ 0) :
    matMul M (matInv M) = idMat := by
  obtain ⟨⟨a, b, c⟩, ⟨d, e, f⟩, ⟨g, h2, i⟩⟩ := M
  simp only [det] at h
  simp only [matMul, matInv, det, vecMulMat, idMat, Mat3.mk.injEq, Vec3.mk.injEq]
  field_simp
  refine ⟨⟨by ring, by ring, by ring⟩, ⟨by ring, by ring, by ring⟩,
    by ring, by ring, by ring⟩

theorem matInv_matMul (M : Mat3) (h : det M ≠ 0) :
    matMul (matInv M) M = idMat := by
  obtain ⟨⟨a, b, c⟩, ⟨d, e, f⟩, ⟨g, h2, i⟩⟩ := M
  simp only [det] at h
  simp only [matMul, matInv, det, vecMulMat, idMat, Mat3.mk.injEq, Vec3.mk.injEq]
  field_simp
  refine ⟨⟨by ring, by ring, by ring⟩, ⟨by ring, by ring, by ring⟩,
    by ring, by ring, by ring⟩

theorem unscaleVec_scaleVec (b : Box) (v : Vec3) (h : det b.vects ≠ 0) :
    unscaleVec b (scaleVec b v) = v := by
  unfold unscaleVec scaleVec
  rw [vecMulMat_matMul, matInv_matMul _ h, vecMulMat_idMat]
  cases v; cases b
  simp [Vec3.ext_iff]

theorem scaleVec_unscaleVec (b : Box) (v : Vec3) (h : det b.vects ≠ 0) :
    scaleVec b (unscaleVec b v) = v := by
  unfold unscaleVec scaleVec
  have hsub : vecMulMat v b.vects + b.origin - b.origin = vecMulMat v b.vects := by
    simp [Vec3.ext_iff]
  rw [hsub, vecMulMat_matMul, matMul_matInv _ h, vecMulMat_idMat]

theorem map_scale_map_unscale (b : Box) (h : det b.vects ≠ 0) (l : List Vec3) :
    (l.map (scaleVec b)).map (unscaleVec b) = l := by
  induction l with
  | nil => simp
  | cons a t ih => simp [unscaleVec_scaleVec b a h, ih]

theorem map_unscale_map_scale (b : Box) (h : det b.vects ≠ 0) (l : List Vec3) :
    (l.map (unscaleVec b)).map (scaleVec b) = l := by
  induction l with
  | nil => simp
  | cons a t ih => simp [scaleVec_unscaleVec b a h, ih]

/-! ## Dict lemmas -/

theorem dictGet_dictSet (d : PropDict) (k k' : String) (v : PropVal) :
    dictGet (dictSet d k v) k' = if k' = k then some v else dictGet d k' := by
  induction d with
  | nil =>
    by_cases h : k' = k
    · simp [dictSet, dictGet, h]
    · have h2 : ¬ (k = k') := fun hh => h hh.symm
      simp [dictSet, dictGet, h, h2]
  | cons kv rest ih =>
    obtain ⟨k0, v0⟩ := kv
    by_cases h0 : k0 = k
    · subst h0
      by_cases h : k' = k0
      · subst h
        simp [dictSet, dictGet]
      · have h2 : ¬ (k0 = k') := fun hh => h hh.symm
        simp [dictSet, dictGet, h, h2]
    · by_cases h1 : k0 = k'
      · subst h1
        simp [dictSet, dictGet, h0]
      · simp [dictSet, dictGet, h0, h1, ih]

/-! ## pbc lemmas -/

theorem pbcSet_ok_iff (l : List Bool) :
    (∃ t, pbcSet l = .ok t) ↔ l.length = 3 := by
  match l with
  | [] => simp [pbcSet]
  | [a] => simp [pbcSet]
  | [a, b] => simp [pbcSet]
  | [a, b, c] => simp [pbcSet]
  | a :: b :: c :: d :: rest => simp [pbcSet]

/-! ## Concrete evaluations of the wrap scenario -/

theorem wrapCex_eval : wrap sysWrapCex = wrapCexOnce := by
  simp only [wrap, boxSet, sysWrapCex, box10, scaleVec, unscaleVec, matInv, det,
    Box.vects, vecMulMat, wrapBounds, axisMin, axisMax, axisWrap, fracPart,
    Vec3.smul, List.map, List.foldl, scale_str_not_empty, Bool.false_eq_true,
    if_false, if_true, Vec3.add_x, Vec3.add_y, Vec3.add_z, Vec3.sub_x,
    Vec3.sub_y, Vec3.sub_z]
  norm_num [Vec3.ext_iff, System.mk.injEq, Box.ext_iff, wrapCexOnce]

theorem wrapCexIntended_eval : wrapIntended sysWrapCex = wrapCexOnceIntended := by
  simp only [wrapIntended, boxSetIntended, sysWrapCex, box10, scaleVec,
    unscaleVec, matInv, det, Box.vects, vecMulMat, wrapBounds, axisMin, axisMax,
    axisWrap, fracPart, Vec3.smul, List.map, List.foldl, Bool.false_eq_true,
    if_false, if_true, Vec3.add_x, Vec3.add_y, Vec3.add_z, Vec3.sub_x,
    Vec3.sub_y, Vec3.sub_z]
  norm_num [Vec3.ext_iff, System.mk.injEq, Box.ext_iff, wrapCexOnceIntended]

theorem wrapCexOnce_again : (wrap wrapCexOnce).box.origin.x = -104601/100000 := by
  simp only [wrap, boxSet, wrapCexOnce, scaleVec, unscaleVec, matInv, det,
    Box.vects, vecMulMat, wrapBounds, axisMin, axisMax, axisWrap, fracPart,
    Vec3.smul, List.map, List.foldl, scale_str_not_empty, Bool.false_eq_true,
    if_false, if_true, Vec3.add_x, Vec3.add_y, Vec3.add_z, Vec3.sub_x,
    Vec3.sub_y, Vec3.sub_z]
  norm_num

theorem wrapIntended_idem_on_cex :
    wrapIntended (wrapIntended sysWrapCex) = wrapIntended sysWrapCex := by
  rw [wrapCexIntended_eval]
  simp only [wrapIntended, boxSetIntended, wrapCexOnceIntended, scaleVec,
    unscaleVec, matInv, det, Box.vects, vecMulMat, wrapBounds, axisMin, axisMax,
    axisWrap, fracPart, Vec3.smul, List.map, List.foldl, Bool.false_eq_true,
    if_false, if_true, Vec3.add_x, Vec3.add_y, Vec3.add_z, Vec3.sub_x,
    Vec3.sub_y, Vec3.sub_z]
  norm_num [Vec3.ext_iff, System.mk.injEq, Box.ext_iff]

/-! ## Claim theorems -/

/-- C1 (code_bug): `box_set` with `scale=False` is claimed to leave absolute
atom positions unchanged, but line 109's `if not 'scale':` makes the
fractional-preserving branch run unconditionally: doubling the unit box with
`scale=False` moves the atom from `(1,0,0)` to `(2,0,0)`, while the
docstring-intended semantics (`boxSetIntended`) leaves it at `(1,0,0)`.
With `scale=True` the two semantics agree. -/
theorem box_set_scale_false_rescales :
    (boxSet sysC1 boxDoubled false).atoms = [⟨2, 0, 0⟩]
    ∧ sysC1.atoms = [⟨1, 0, 0⟩]
    ∧ (boxSetIntended sysC1 boxDoubled false).atoms = [⟨1, 0, 0⟩]
    ∧ ∀ (S : System) (b : Box), boxSet S b true = boxSetIntended S b true := by
  refine ⟨?_, rfl, rfl, ?_⟩
  · simp only [boxSet, sysC1, boxDoubled, cubeBox, scaleVec, unscaleVec, matInv,
      det, Box.vects, vecMulMat, List.map, scale_str_not_empty,
      Bool.false_eq_true, if_false]
    norm_num [Vec3.ext_iff]
  · intro S b
    simp [boxSet, boxSetIntended, scale_str_not_empty]

/-- C2 (code_bug): `wrap` is claimed idempotent, but on the non-periodic
scenario system a second `wrap` shifts the box origin again (from x = -0.51
to x = -1.04601), because the dead-branch `box_set` rescales the atom
positions into the expanded box each time. -/
theorem wrap_not_idempotent : wrap (wrap sysWrapCex) ≠ wrap sysWrapCex := by
  intro h
  rw [wrapCex_eval] at h
  have h2 := wrapCexOnce_again
  rw [h] at h2
  norm_num [wrapCexOnce] at h2

/-- C3 (code_bug): in the spec scenario (x non-periodic, box xlo = 0,
xhi = 10, atom at x = -0.5), `wrap` does produce box xlo ≤ -0.501 as
claimed, but the atom's absolute position is NOT unchanged: the code moves
it to x = -2071/2000 = -1.0355.  Under the docstring-intended `box_set`
semantics the atom stays at -0.5 with the same expanded box. -/
theorem wrap_nonperiodic_scenario :
    (wrap sysWrapCex).box.origin.x ≤ -501/1000
    ∧ sysWrapCex.atoms = [⟨-1/2, 5, 5⟩]
    ∧ (wrap sysWrapCex).atoms = [⟨-2071/2000, 5, 5⟩]
    ∧ (wrap sysWrapCex).atoms ≠ sysWrapCex.atoms
    ∧ (wrapIntended sysWrapCex).atoms = sysWrapCex.atoms
    ∧ (wrapIntended sysWrapCex).box.origin.x = -51/100 := by
  rw [wrapCex_eval, wrapCexIntended_eval]
  refine ⟨by norm_num [wrapCexOnce], rfl, rfl, ?_, rfl, rfl⟩
  simp only [wrapCexOnce, sysWrapCex, ne_eq, List.cons.injEq, Vec3.mk.injEq]
  norm_num

/-- C4 (confirmed): for any system whose lattice matrix is invertible
(nonzero determinant), `unscale` inverts `scale` exactly, both on a single
3-vector and elementwise on an array of them. -/
theorem unscale_scale_roundtrip (S : System) (v : Vec3)
    (h : det S.box.vects ≠ 0) :
    unscaleVec S.box (scaleVec S.box v) = v
    ∧ ∀ l : List Vec3, (l.map (scaleVec S.box)).map (unscaleVec S.box) = l :=
  ⟨unscaleVec_scaleVec S.box v h, fun l => map_scale_map_unscale S.box h l⟩

/-- Witness for C4 at the concrete unit-box system and v = (5, 7, -2). -/
theorem unscale_scale_roundtrip_witness :
    det sysUnit.box.vects ≠ 0
    ∧ unscaleVec sysUnit.box (scaleVec sysUnit.box ⟨5, 7, -2⟩) = ⟨5, 7, -2⟩ :=
  ⟨by norm_num [sysUnit, cubeBox, det, Box.vects],
   (unscale_scale_roundtrip sysUnit ⟨5, 7, -2⟩
     (by norm_num [sysUnit, cubeBox, det, Box.vects])).1⟩

/-- C5 (confirmed): `scale` computes exactly the spec formula
`(v - origin) · inverse(lattice)` and `unscale` exactly `v · lattice +
origin`, for every input vector (hence no bounds clipping). -/
theorem scale_unscale_formula (S : System) (v : Vec3)
    (h : det S.box.vects ≠ 0) :
    scaleVec S.box v = specScale S.box v
    ∧ unscaleVec S.box v = specUnscale S.box v :=
  ⟨rfl, rfl⟩

/-- Witness for C5 at the concrete unit-box system and v = (3, -1, 4). -/
theorem scale_unscale_formula_witness :
    det sysUnit.box.vects ≠ 0
    ∧ scaleVec sysUnit.box ⟨3, -1, 4⟩ = specScale sysUnit.box ⟨3, -1, 4⟩ :=
  ⟨by norm_num [sysUnit, cubeBox, det, Box.vects],
   (scale_unscale_formula sysUnit ⟨3, -1, 4⟩
     (by norm_num [sysUnit, cubeBox, det, Box.vects])).1⟩

/-- C6 (confirmed): after any `nlist(cutoff, cmult)` call the computed
neighbor list is bound to the reserved key `'nlist'` in the property dict —
whatever was bound there before, including a prior neighbor list — and is
retrieved by looking that key up. -/
theorem nlist_stored_under_key :
    ∀ (f : System → ℚ → ℕ → NList) (S : System) (cutoff : ℚ) (cmult : ℕ),
      dictGet ((sysNlist f S cutoff cmult).2).prop "nlist"
        = some (.nlistVal (f S cutoff cmult)) := by
  intro f S c m
  simp [sysNlist, dictGet_dictSet]

/-- C7 (confirmed): the pbc value always has exactly 3 boolean entries: the
setter (alone and inside construction) succeeds exactly on length-3 input,
stores those entries, and no System operation touches the flags. -/
theorem pbc_always_three :
    (∀ l : List Bool, (∃ t, pbcSet l = .ok t) ↔ l.length = 3)
    ∧ (∀ a b c : Bool, pbcSet [a, b, c] = .ok (a, b, c))
    ∧ (∀ (S : System) (l : List Bool),
        (∃ S', setPbc S l = .ok S') ↔ l.length = 3)
    ∧ (∀ (atoms : List Vec3) (box : Box) (l : List Bool) (sc : Bool)
        (prop : PropDict),
        (∃ S, mkSystem atoms box l sc prop = .ok S) ↔ l.length = 3)
    ∧ (∀ S : System, S.pbcList.length = 3)
    ∧ (∀ (S : System) (b : Box) (sc : Bool), (boxSet S b sc).pbcList = S.pbcList)
    ∧ (∀ S : System, (wrap S).pbcList = S.pbcList)
    ∧ (∀ (nf : Box → Box) (S : System),
        (boxNormalize nf S).pbcList = S.pbcList)
    ∧ (∀ (f : System → ℚ → ℕ → NList) (S : System) (c : ℚ) (m : ℕ),
        ((sysNlist f S c m).2).pbcList = S.pbcList) := by
  refine ⟨pbcSet_ok_iff, fun a b c => rfl, ?_, ?_, fun S => rfl, ?_, ?_,
    fun nf S => rfl, fun f S c m => rfl⟩
  · intro S l
    rw [← pbcSet_ok_iff l]
    constructor
    · rintro ⟨S', hS'⟩
      cases hp : pbcSet l with
      | ok t => exact ⟨t, rfl⟩
      | error e => rw [setPbc, hp] at hS'; cases hS'
    · rintro ⟨t, ht⟩
      exact ⟨_, by rw [setPbc, ht]; rfl⟩
  · intro atoms box l sc prop
    rw [← pbcSet_ok_iff l]
    constructor
    · rintro ⟨S, hS⟩
      cases hp : pbcSet l with
      | ok t => exact ⟨t, rfl⟩
      | error e => rw [mkSystem, hp] at hS; cases hS
    · rintro ⟨t, ht⟩
      exact ⟨_, by rw [mkSystem, ht]⟩
  · intro S b sc
    simp [boxSet, System.pbcList, scale_str_not_empty]
  · intro S
    simp [wrap, boxSet, System.pbcList, scale_str_not_empty]

/-- Witness for C7 (its statement has no hypotheses, but the first conjunct
is exercised at the concrete inputs `[true, false, true]` (accepted) and
`[true, false]` (rejected)). -/
theorem pbc_always_three_witness :
    (∃ t, pbcSet [true, false, true] = .ok t)
    ∧ ¬ ∃ t, pbcSet [true, false] = .ok t :=
  ⟨(pbc_always_three.1 [true, false, true]).mpr rfl,
   fun h => by simpa using (pbc_always_three.1 [true, false]).mp h⟩

/-- C8 (confirmed): `box_normalize` leaves every atom's fractional position
unchanged whenever the normalized lattice is invertible: scaling the new
positions in the new box gives back exactly the old scaled positions. -/
theorem box_normalize_preserves_fractional (normFn : Box → Box) (S : System)
    (h : det (normFn S.box).vects ≠ 0) :
    (boxNormalize normFn S).atoms.map (scaleVec (boxNormalize normFn S).box)
      = S.atoms.map (scaleVec S.box) := by
  simp only [boxNormalize]
  exact map_unscale_map_scale (normFn S.box) h _

/-- Witness for C8 with the identity normalizer on the unit-box system. -/
theorem box_normalize_preserves_fractional_witness :
    det ((fun b => b) sysUnit.box).vects ≠ 0
    ∧ (boxNormalize (fun b => b) sysUnit).atoms.map
        (scaleVec (boxNormalize (fun b => b) sysUnit).box)
      = sysUnit.atoms.map (scaleVec sysUnit.box) :=
  ⟨by norm_num [sysUnit, cubeBox, det, Box.vects],
   box_normalize_preserves_fractional (fun b => b) sysUnit
     (by norm_num [sysUnit, cubeBox, det, Box.vects])⟩

/-- C9 (confirmed): an integer-dtype `dvect` argument is always resolved as
atom indices into the stored positions — in particular the literal
`[1, 2, 3]` becomes the positions of atoms 1, 2 and 3 — while a
non-integer-dtype argument is passed through unchanged, in either argument
slot. -/
theorem dvect_int_args_are_indices :
    (∀ (g : List Vec3 → List Vec3 → Box → List Bool → List Vec3) (S : System)
       (l : List ℕ) (a1 : PosArg),
       sysDvect g S (.idx l) a1
         = g (l.map (posAt S)) (resolveArg S a1) S.box S.pbcList)
    ∧ (∀ (g : List Vec3 → List Vec3 → Box → List Bool → List Vec3) (S : System)
       (p : List Vec3) (a1 : PosArg),
       sysDvect g S (.pos p) a1 = g p (resolveArg S a1) S.box S.pbcList)
    ∧ (∀ (g : List Vec3 → List Vec3 → Box → List Bool → List Vec3) (S : System)
       (a0 : PosArg) (l : List ℕ),
       sysDvect g S a0 (.idx l)
         = g (resolveArg S a0) (l.map (posAt S)) S.box S.pbcList)
    ∧ (∀ (g : List Vec3 → List Vec3 → Box → List Bool → List Vec3) (S : System)
       (a0 : PosArg) (p : List Vec3),
       sysDvect g S a0 (.pos p) = g (resolveArg S a0) p S.box S.pbcList)
    ∧ (∀ S : System,
       resolveArg S (.idx [1, 2, 3]) = [posAt S 1, posAt S 2, posAt S 3]) :=
  ⟨fun g S l a1 => rfl, fun g S p a1 => rfl, fun g S a0 l => rfl,
   fun g S a0 p => rfl, fun S => rfl⟩

/-- C10 (confirmed): `nlist` returns `None`; its only effect is the binding
of `'nlist'` in the property dict — atoms, box and pbc flags are untouched,
and every other property key keeps its previous value. -/
theorem nlist_returns_none_frame :
    ∀ (f : System → ℚ → ℕ → NList) (S : System) (cutoff : ℚ) (cmult : ℕ),
      (sysNlist f S cutoff cmult).1 = none
      ∧ ((sysNlist f S cutoff cmult).2).atoms = S.atoms
      ∧ ((sysNlist f S cutoff cmult).2).box = S.box
      ∧ ((sysNlist f S cutoff cmult).2).pbcList = S.pbcList
      ∧ ∀ k : String,
          dictGet ((sysNlist f S cutoff cmult).2).prop k
            = if k = "nlist" then some (.nlistVal (f S cutoff cmult))
              else dictGet S.prop k := by
  intro f S c m
  exact ⟨rfl, rfl, rfl, rfl, fun k => dictGet_dictSet S.prop "nlist" k _⟩

end Atomman
